import Mathlib

/-!
Verification of the Eghact native microservice orchestrator
(`src/microservices/native-orchestrator.c`): service registry, load
balancer, message queue with dispatcher, health-check worker and circuit
breaker, shallowly embedded in Lean.

Pointers become list positions; the node a C pointer designates is
identified by its `service_id`. C `int` fields that are only ever
0/1-valued or non-negative are embedded as `Nat`; `time_t` values are
embedded as `Int`.
-/

namespace Orchestrator

/-- Embeds `struct ServiceNode` (the `next` pointer becomes list structure). -/
structure ServiceNode where
  service_id : Nat
  service_name : String
  host : String
  port : Int
  health_status : Nat
  load : Nat
deriving DecidableEq, Repr

/-- Embeds `LoadBalancingStrategy`. -/
inductive LoadBalancingStrategy where
  | LB_ROUND_ROBIN
  | LB_LEAST_CONNECTIONS
  | LB_WEIGHTED
  | LB_IP_HASH
deriving DecidableEq, Repr

/-- Embeds `LoadBalancer` (the registry back-pointer is passed explicitly). -/
structure LoadBalancer where
  strategy : LoadBalancingStrategy
  current_index : Nat
deriving DecidableEq, Repr

/-- The registry's intrusive list of services.  `eghact_register_service`
pushes at the head (`node->next = services; services = node`), so the head
of the list is the most recently registered node. -/
abbrev RegistryList := List ServiceNode

/-- Embeds `selected->load++`: bumps the `load` of the node the selected
pointer designates, i.e. the first node carrying the selected id. -/
def updateLoad : RegistryList → Nat → RegistryList
  | [], _ => []
  | n :: rest, id =>
      if n.service_id = id then { n with load := n.load + 1 } :: rest
      else n :: updateLoad rest id

/-- The instance-collection loop of `select_service_instance`: walk the
registry list and keep the nodes with the requested name and
`health_status == 1`, in traversal order. -/
def collectInstances (services : RegistryList) (service_name : String) : List ServiceNode :=
  services.filter fun n => n.service_name == service_name && n.health_status == 1

/-- The `LB_LEAST_CONNECTIONS` scan of `select_service_instance`:
`selected = instances[0]`, then replace whenever a strictly smaller
`load` is seen. -/
def leastConnScan : List ServiceNode → ServiceNode → ServiceNode
  | [], sel => sel
  | n :: rest, sel => leastConnScan rest (if n.load < sel.load then n else sel)

/-- Embeds `select_service_instance`: collects the healthy instances of the
service, applies the strategy, bumps the chosen node's load.  Returns the
selected node (as read at selection time; the C function returns a pointer
into the registry, whose `load` the commit just incremented), the updated
registry and the updated balancer.  `LB_WEIGHTED` and `LB_IP_HASH` have
empty bodies in the C switch, so they select nothing. -/
def select_service_instance (services : RegistryList) (lb : LoadBalancer)
    (service_name : String) : Option ServiceNode × RegistryList × LoadBalancer :=
  match collectInstances services service_name with
  | [] => (none, services, lb)
  | first :: rest =>
      match lb.strategy with
      | .LB_ROUND_ROBIN =>
          let sel := (first :: rest).get
            ⟨lb.current_index % (first :: rest).length,
             Nat.mod_lt _ (Nat.succ_pos rest.length)⟩
          (some sel, updateLoad services sel.service_id,
           { lb with current_index := lb.current_index + 1 })
      | .LB_LEAST_CONNECTIONS =>
          let sel := leastConnScan rest first
          (some sel, updateLoad services sel.service_id, lb)
      | .LB_WEIGHTED => (none, services, lb)
      | .LB_IP_HASH => (none, services, lb)

/-- Embeds `eghact_discover_service`: delegates to `select_service_instance`. -/
def eghact_discover_service (services : RegistryList) (lb : LoadBalancer)
    (service_name : String) : Option ServiceNode × RegistryList × LoadBalancer :=
  select_service_instance services lb service_name

/-- Modelled from the spec: `generate_service_id` is only declared in
`eghact-core.h`; its definition is not under `src`.  The spec requires "a
fresh unique id" at each registration, modelled as a monotone counter.
Returns the generated id and the successor counter state. -/
def generate_service_id (next_id : Nat) : Nat × Nat := (next_id, next_id + 1)

/-- Registry state: the intrusive service list together with the id
generator's counter (the latter modelled from the spec, see
`generate_service_id`). -/
structure Registry where
  services : RegistryList
  next_id : Nat
deriving DecidableEq, Repr

/-- The registry as `eghact_orchestrator_init` leaves it: no services. -/
def registry_init : Registry := { services := [], next_id := 0 }

/-- Embeds `eghact_register_service`: builds a node with a generated id,
`health_status = 1` and `load = 0`, pushes it at the head of the service
list, and returns 0. -/
def eghact_register_service (reg : Registry) (name host : String) (port : Int) :
    Int × Registry :=
  let idPair := generate_service_id reg.next_id
  (0, { services :=
          { service_id := idPair.1, service_name := name, host := host,
            port := port, health_status := 1, load := 0 } :: reg.services,
        next_id := idPair.2 })

/-- Embeds the health-status commit `current->health_status = ...` of
`health_check_worker` for the node a pointer designates, identified by id. -/
def set_health : RegistryList → Nat → Nat → RegistryList
  | [], _, _ => []
  | n :: rest, id, status =>
      if n.service_id = id then { n with health_status := status } :: rest
      else n :: set_health rest id status

end Orchestrator

namespace Orchestrator

/-! ## Message queue and dispatcher
(`eghact_send_message`, `message_dispatcher_worker`) -/

/-- Embeds `struct Message` (the `next` pointer becomes list structure). -/
structure Message where
  from_service : String
  to_service : String
  payload : String
  priority : Int
deriving DecidableEq, Repr

/-- The chain of `next` pointers from `head`; the `tail` pointer of
`MessageQueue` always designates the last element of this chain. -/
abbrev MessageQueueList := List Message

/-- Embeds the enqueue section of `eghact_send_message`: if `tail` is
non-null, link the new message after it; otherwise the new message becomes
both head and tail. -/
def mq_enqueue (q : MessageQueueList) (msg : Message) : MessageQueueList :=
  match q with
  | [] => [msg]
  | _ :: _ => q ++ [msg]

/-- Specification-side functional FIFO enqueue ("appends to the tail"):
plain list append. -/
def fifo_enqueue (q : List Message) (msg : Message) : List Message := q ++ [msg]

/-- Embeds `eghact_send_message`: builds a message with default priority 5,
enqueues it and returns 0; no input is rejected. -/
def eghact_send_message (q : MessageQueueList) (from_s to_s payload : String) :
    Int × MessageQueueList :=
  (0, mq_enqueue q { from_service := from_s, to_service := to_s,
                     payload := payload, priority := 5 })

/-- Orchestrator state threaded through the dispatcher: the registry list,
the load balancer and the message queue. -/
structure OrchState where
  services : RegistryList
  lb : LoadBalancer
  queue : MessageQueueList
deriving DecidableEq, Repr

/-- One iteration of `message_dispatcher_worker`: with an empty queue the
worker blocks on the condition variable (no step); otherwise it pops the
head, resolves the destination through `eghact_discover_service`, hands the
message to `deliver_message` exactly when a target was found, and frees the
message.  The second component records the popped message and the target it
was handed to (`none` = discarded undelivered). -/
def message_dispatcher_step (st : OrchState) :
    OrchState × Option (Message × Option ServiceNode) :=
  match st.queue with
  | [] => (st, none)
  | msg :: rest =>
      let r := eghact_discover_service st.services st.lb msg.to_service
      ({ services := r.2.1, lb := r.2.2, queue := rest }, some (msg, r.1))

/-- Runs `message_dispatcher_step` `n` times and collects, in order, the
messages handled together with the target each was handed to. -/
def dispatchRun : Nat → OrchState → List (Message × Option ServiceNode) × OrchState
  | 0, st => ([], st)
  | n + 1, st =>
      let p := message_dispatcher_step st
      let q := dispatchRun n p.1
      (match p.2 with
       | some d => d :: q.1
       | none => q.1, q.2)

/-! ## Health-check worker (`health_check_worker`) -/

/-- Lock and I/O events of one `health_check_worker` iteration. -/
inductive HCEvent where
  | lock_acquire
  | lock_release
  | probe (id : Nat)
  | commit (id : Nat) (status : Nat)
deriving DecidableEq, Repr

/-- The event trace of one iteration of `health_check_worker`, read off the
code: the registry lock is taken once at the top of the iteration, every
node is probed over the network (`socket`/`connect`/`send`/`recv`) and its
`health_status` committed inside that critical section, and the lock is
released only after the last node.  `probeResult` gives the status each
probe reports (1 iff the connection succeeded and answered `OK`). -/
def health_check_iteration_trace (nodes : RegistryList) (probeResult : Nat → Nat) :
    List HCEvent :=
  (HCEvent.lock_acquire ::
    nodes.flatMap fun n => [HCEvent.probe n.service_id,
                         HCEvent.commit n.service_id (probeResult n.service_id)])
  ++ [HCEvent.lock_release]

/-- The registry lock is held while the event at position `i` of a trace
executes: strictly more acquisitions than releases precede it. -/
def lockHeldAt (tr : List HCEvent) (i : Nat) : Prop :=
  (tr.take i).count HCEvent.lock_acquire > (tr.take i).count HCEvent.lock_release

instance (tr : List HCEvent) (i : Nat) : Decidable (lockHeldAt tr i) := by
  unfold lockHeldAt; infer_instance

/-! ## Deregistration (spec §4.1, §6) -/

/-- Modelled from the spec: no `deregister` implementation exists under
`src`; the spec's registry maps a name to a set of nodes with registry-wide
unique ids, and `deregister(id)` "removes the node; fails with `NotFound`
if the id is absent".  `none` is the `NotFound` outcome. -/
def deregister (reg : Registry) (id : Nat) : Option Registry :=
  if reg.services.any fun n => n.service_id == id then
    some { reg with services := reg.services.filter fun n => !(n.service_id == id) }
  else
    none

end Orchestrator

namespace Orchestrator

/-! ## Circuit breaker (`create_circuit_breaker`, `circuit_breaker_call`) -/

/-- Embeds the anonymous state enum of `CircuitBreaker`. -/
inductive CBState where
  | CLOSED
  | OPEN
  | HALF_OPEN
deriving DecidableEq, Repr

/-- Embeds `struct CircuitBreaker`. -/
structure CircuitBreaker where
  failure_count : Nat
  failure_threshold : Nat
  timeout_duration : Int
  last_failure_time : Int
  state : CBState
deriving DecidableEq, Repr

/-- Embeds `create_circuit_breaker`. -/
def create_circuit_breaker (threshold : Nat) (timeout : Int) : CircuitBreaker :=
  { failure_count := 0, failure_threshold := threshold,
    timeout_duration := timeout, last_failure_time := 0, state := .CLOSED }

/-- Embeds `circuit_breaker_call`.  `now` stands for `time(NULL)` and
`funcResult` for the value `func(arg)` returns when control reaches that
call.  The result is the returned `int`, whether the wrapped function was
invoked, and the breaker afterwards. -/
def circuit_breaker_call (cb : CircuitBreaker) (now : Int) (funcResult : Int) :
    Int × Bool × CircuitBreaker :=
  let run : CircuitBreaker → Int × Bool × CircuitBreaker := fun cb =>
    if funcResult = 0 then
      if cb.state = .HALF_OPEN then
        (funcResult, true, { cb with state := .CLOSED, failure_count := 0 })
      else
        (funcResult, true, cb)
    else
      let cb' := { cb with failure_count := cb.failure_count + 1,
                           last_failure_time := now }
      if cb'.failure_count ≥ cb'.failure_threshold then
        (funcResult, true, { cb' with state := .OPEN })
      else
        (funcResult, true, cb')
  if cb.state = .OPEN then
    if now - cb.last_failure_time > cb.timeout_duration then
      run { cb with state := .HALF_OPEN }
    else
      (-1, false, cb)
  else
    run cb

end Orchestrator

namespace Orchestrator

/-! ## Theorems -/

/-- C1: for a breaker created with threshold 3, three consecutive failing
calls from CLOSED open it (with the failure count at 3 and the last failure
time recorded); while OPEN, any call at most `timeout_duration` after the
last failure returns `-1` (`CircuitOpenError`) without invoking the wrapped
function and leaves the breaker unchanged; the first call strictly after
the timeout invokes the function (HALF_OPEN) and, on success, closes the
breaker with `failure_count = 0`, while on failure it reopens with
`last_failure_time` reset to the current time. -/
theorem C1_circuit_breaker_scenario
    (t τ1 τ2 τ3 τ4 τ5 r1 r2 r3 r4 r5 : Int)
    (hr1 : r1 ≠ 0) (hr2 : r2 ≠ 0) (hr3 : r3 ≠ 0) (hr5 : r5 ≠ 0)
    (hbefore : τ4 - τ3 ≤ t) (hafter : τ5 - τ3 > t) :
    let cbOpen : CircuitBreaker :=
      { failure_count := 3, failure_threshold := 3, timeout_duration := t,
        last_failure_time := τ3, state := .OPEN }
    (circuit_breaker_call (circuit_breaker_call (circuit_breaker_call
        (create_circuit_breaker 3 t) τ1 r1).2.2 τ2 r2).2.2 τ3 r3).2.2 = cbOpen
    ∧ circuit_breaker_call cbOpen τ4 r4 = (-1, false, cbOpen)
    ∧ circuit_breaker_call cbOpen τ5 0 =
        (0, true, { failure_count := 0, failure_threshold := 3,
                    timeout_duration := t, last_failure_time := τ3,
                    state := .CLOSED })
    ∧ circuit_breaker_call cbOpen τ5 r5 =
        (r5, true, { failure_count := 4, failure_threshold := 3,
                     timeout_duration := t, last_failure_time := τ5,
                     state := .OPEN }) := by
  have hb : ¬ (τ4 - τ3 > t) := by omega
  simp [create_circuit_breaker, circuit_breaker_call, hr1, hr2, hr3, hr5, hb,
    hafter]

/-- C1 witness: the scenario at `t = 10`, failures at times 0, 1, 2, a
rejected call at time 5 and a let-through call at time 13. -/
theorem C1_circuit_breaker_scenario_witness :
    ((1 : Int) ≠ 0 ∧ (5 : Int) - 2 ≤ 10 ∧ (13 : Int) - 2 > 10) ∧
    (let cbOpen : CircuitBreaker :=
      { failure_count := 3, failure_threshold := 3, timeout_duration := 10,
        last_failure_time := 2, state := .OPEN }
    (circuit_breaker_call (circuit_breaker_call (circuit_breaker_call
        (create_circuit_breaker 3 10) 0 1).2.2 1 1).2.2 2 1).2.2 = cbOpen
    ∧ circuit_breaker_call cbOpen 5 1 = (-1, false, cbOpen)
    ∧ circuit_breaker_call cbOpen 13 0 =
        (0, true, { failure_count := 0, failure_threshold := 3,
                    timeout_duration := 10, last_failure_time := 2,
                    state := .CLOSED })
    ∧ circuit_breaker_call cbOpen 13 1 =
        (1, true, { failure_count := 4, failure_threshold := 3,
                    timeout_duration := 10, last_failure_time := 13,
                    state := .OPEN })) :=
  ⟨by norm_num,
   C1_circuit_breaker_scenario 10 0 1 2 5 13 1 1 1 1 1
     (by norm_num) (by norm_num) (by norm_num) (by norm_num)
     (by norm_num) (by norm_num)⟩

/-- The least-connections scan returns the seed or a scanned node. -/
theorem leastConnScan_mem (l : List ServiceNode) (sel : ServiceNode) :
    leastConnScan l sel ∈ sel :: l := by
  induction l generalizing sel with
  | nil => simp [leastConnScan]
  | cons n rest ih =>
    rw [leastConnScan]
    rcases List.mem_cons.mp (ih (if n.load < sel.load then n else sel)) with h1 | h1
    · rw [h1]; split_ifs <;> simp
    · exact List.mem_cons_of_mem _ (List.mem_cons_of_mem _ h1)

/-- The least-connections scan returns a node of minimal load among the
seed and the scanned nodes. -/
theorem leastConnScan_le (l : List ServiceNode) (sel : ServiceNode) :
    ∀ n ∈ sel :: l, (leastConnScan l sel).load ≤ n.load := by
  induction l generalizing sel with
  | nil =>
    intro n hn
    rcases List.mem_cons.mp hn with h1 | h1
    · rw [h1]; simp [leastConnScan]
    · simp at h1
  | cons m rest ih =>
    intro n hn
    rw [leastConnScan]
    have hseed := ih (if m.load < sel.load then m else sel) _
      (List.mem_cons_self _ _)
    rcases List.mem_cons.mp hn with h1 | h1
    · rw [h1]
      refine le_trans hseed ?_
      split_ifs with hc
      · exact le_of_lt hc
      · exact le_refl _
    · rcases List.mem_cons.mp h1 with h2 | h2
      · rw [h2]
        refine le_trans hseed ?_
        split_ifs with hc
        · exact le_refl _
        · exact le_of_not_lt hc
      · exact ih _ n (List.mem_cons_of_mem _ h2)

/-- The least-connections scan keeps the current candidate on a load tie
(`instances[i]->load < selected->load` is strict), so it returns the FIRST
node of minimal load in scan order: every node strictly before the result
has strictly larger load. -/
theorem leastConnScan_first (l : List ServiceNode) (sel : ServiceNode) :
    ∃ l1 l2, sel :: l = l1 ++ leastConnScan l sel :: l2 ∧
      ∀ n ∈ l1, (leastConnScan l sel).load < n.load := by
  induction l generalizing sel with
  | nil => exact ⟨[], [], by simp [leastConnScan], by simp⟩
  | cons m rest ih =>
    rw [leastConnScan]
    by_cases hc : m.load < sel.load
    · rw [if_pos hc]
      obtain ⟨l1, l2, heq, hlt⟩ := ih m
      refine ⟨sel :: l1, l2, by rw [List.cons_append, ← heq], ?_⟩
      intro n hn
      rcases List.mem_cons.mp hn with h1 | h1
      · rw [h1]
        have hm := leastConnScan_le rest m m (List.mem_cons_self _ _)
        exact lt_of_le_of_lt hm hc
      · exact hlt n h1
    · rw [if_neg hc]
      obtain ⟨l1, l2, heq, hlt⟩ := ih sel
      cases l1 with
      | nil =>
        simp only [List.nil_append, List.cons.injEq] at heq
        refine ⟨[], m :: rest, ?_, by simp⟩
        rw [List.nil_append, ← heq.1]
      | cons a l1' =>
        simp only [List.cons_append, List.cons.injEq] at heq
        refine ⟨sel :: m :: l1', l2, ?_, ?_⟩
        · rw [List.cons_append, List.cons_append, ← heq.2]
        · intro n hn
          have hs : (leastConnScan rest sel).load < sel.load := by
            have ha := hlt a (List.mem_cons_self _ _)
            rw [← heq.1] at ha
            exact ha
          rcases List.mem_cons.mp hn with h1 | h1
          · rw [h1]; exact hs
          · rcases List.mem_cons.mp h1 with h2 | h2
            · rw [h2]
              exact lt_of_lt_of_le hs (le_of_not_lt hc)
            · exact hlt n (List.mem_cons_of_mem _ h2)

/-- Membership in the collected instance list forces a healthy status. -/
theorem mem_collectInstances_healthy {services : RegistryList} {name : String}
    {n : ServiceNode} (h : n ∈ collectInstances services name) :
    n.health_status = 1 := by
  have hp := List.of_mem_filter h
  simp only [Bool.and_eq_true, beq_iff_eq] at hp
  exact hp.2

/-- Membership in the collected instance list forces the requested name. -/
theorem mem_collectInstances_name {services : RegistryList} {name : String}
    {n : ServiceNode} (h : n ∈ collectInstances services name) :
    n.service_name = name := by
  have hp := List.of_mem_filter h
  simp only [Bool.and_eq_true, beq_iff_eq] at hp
  exact hp.1

/-- A registry with two healthy instances of service "svc", both with
load 0: id 0 at 10.0.0.1 registered first, id 1 at 10.0.0.2 registered
second.  Registration pushes at the head, so the service list is
[id 1, id 0]. -/
def demoTieServices : RegistryList :=
  (eghact_register_service (eghact_register_service registry_init
    "svc" "10.0.0.1" 8080).2 "svc" "10.0.0.2" 8080).2.services

/-- C3 counterexample: with two healthy "svc" instances tied at load 0,
least-connections selects the node registered LATEST (id 1), not the node
registered earliest (id 0) as the claim states: the scan starts from
`instances[0]`, which is the head of the registry list, and registration
pushes new nodes at the head. -/
theorem C3_tie_break_counterexample :
    (select_service_instance demoTieServices
        { strategy := .LB_LEAST_CONNECTIONS, current_index := 0 } "svc").1 =
      some { service_id := 1, service_name := "svc", host := "10.0.0.2",
             port := 8080, health_status := 1, load := 0 }
    ∧ (select_service_instance demoTieServices
        { strategy := .LB_LEAST_CONNECTIONS, current_index := 0 } "svc").1 ≠
      some { service_id := 0, service_name := "svc", host := "10.0.0.1",
             port := 8080, health_status := 1, load := 0 } := by
  decide

/-- C3 (amended): under least-connections, whenever the healthy-instance
pool of the requested service is non-empty, some instance is selected; it
belongs to the pool, its load is ≤ the load of every healthy instance of
that service at selection time, and among instances tied at the minimum
load the one EARLIEST in registry-list order — i.e. the most recently
registered, since registration pushes at the head — is selected
(deterministically): every pool member strictly before the selected one has
strictly larger load. -/
theorem C3_least_connections_min_load (services : RegistryList)
    (lb : LoadBalancer) (name : String)
    (hstrat : lb.strategy = .LB_LEAST_CONNECTIONS)
    (hne : collectInstances services name ≠ []) :
    ∃ sel, (select_service_instance services lb name).1 = some sel ∧
      sel ∈ collectInstances services name ∧
      (∀ n ∈ collectInstances services name, sel.load ≤ n.load) ∧
      ∃ l1 l2, collectInstances services name = l1 ++ sel :: l2 ∧
        ∀ n ∈ l1, sel.load < n.load := by
  cases hinst : collectInstances services name with
  | nil => exact absurd hinst hne
  | cons first rest =>
    refine ⟨leastConnScan rest first, ?_, ?_, ?_, ?_⟩
    · simp only [select_service_instance, hinst, hstrat]
    · exact leastConnScan_mem rest first
    · exact leastConnScan_le rest first
    · exact leastConnScan_first rest first

/-- C3 witness: the amended theorem applied to the two-instance tied
registry. -/
theorem C3_least_connections_min_load_witness :
    (({ strategy := .LB_LEAST_CONNECTIONS, current_index := 0 } :
        LoadBalancer).strategy = .LB_LEAST_CONNECTIONS
      ∧ collectInstances demoTieServices "svc" ≠ []) ∧
    (∃ sel, (select_service_instance demoTieServices
        { strategy := .LB_LEAST_CONNECTIONS, current_index := 0 } "svc").1 =
          some sel ∧
      sel ∈ collectInstances demoTieServices "svc" ∧
      (∀ n ∈ collectInstances demoTieServices "svc", sel.load ≤ n.load) ∧
      ∃ l1 l2, collectInstances demoTieServices "svc" = l1 ++ sel :: l2 ∧
        ∀ n ∈ l1, sel.load < n.load) :=
  ⟨⟨rfl, by decide⟩,
   C3_least_connections_min_load demoTieServices
     { strategy := .LB_LEAST_CONNECTIONS, current_index := 0 } "svc"
     rfl (by decide)⟩

/-- The ids of the healthy instances of a service, in registry traversal
order (most recently registered first). -/
def healthyIds (services : RegistryList) (name : String) : List Nat :=
  (collectInstances services name).map ServiceNode.service_id

/-- Runs `select_service_instance` `m` times, collecting in order the ids
of the instances it selects. -/
def rrIdRun : Nat → RegistryList → LoadBalancer → String → List Nat
  | 0, _, _, _ => []
  | m + 1, services, lb, name =>
      match select_service_instance services lb name with
      | (some sel, services', lb') => sel.service_id :: rrIdRun m services' lb' name
      | (none, services', lb') => rrIdRun m services' lb' name

/-- Bumping a node's load changes no id, name or health status, so the
healthy-instance id list of every service survives the load commit. -/
theorem healthyIds_updateLoad (services : RegistryList) (id : Nat)
    (name : String) :
    healthyIds (updateLoad services id) name = healthyIds services name := by
  induction services with
  | nil => rfl
  | cons n rest ih =>
    simp only [updateLoad]
    split_ifs with hc
    · simp only [healthyIds, collectInstances, List.filter_cons]
      dsimp only
      by_cases hp : (n.service_name == name && n.health_status == 1) = true
      · rw [if_pos hp, if_pos hp]; simp
      · rw [if_neg hp, if_neg hp]
    · simp only [healthyIds, collectInstances, List.filter_cons] at ih ⊢
      by_cases hp : (n.service_name == name && n.health_status == 1) = true
      · rw [if_pos hp, if_pos hp]
        simp only [List.map_cons]
        rw [ih]
      · rw [if_neg hp, if_neg hp]; exact ih

/-- One round-robin selection over a non-empty healthy pool selects the
instance at position `current_index % pool size`, commits its load bump and
advances the counter by one. -/
theorem select_round_robin_eq (services : RegistryList) (lb : LoadBalancer)
    (name : String) (first : ServiceNode) (rest : List ServiceNode)
    (hstrat : lb.strategy = .LB_ROUND_ROBIN)
    (hinst : collectInstances services name = first :: rest) :
    ∃ sel : ServiceNode,
      select_service_instance services lb name =
        (some sel, updateLoad services sel.service_id,
         { lb with current_index := lb.current_index + 1 }) ∧
      sel.service_id =
        (healthyIds services name).getD
          (lb.current_index % (healthyIds services name).length) 0 := by
  refine ⟨(first :: rest).get ⟨lb.current_index % (first :: rest).length,
    Nat.mod_lt _ (Nat.succ_pos _)⟩, ?_, ?_⟩
  · simp only [select_service_instance, hinst, hstrat]
  · simp only [healthyIds, hinst, List.length_map]
    have hb : lb.current_index % (first :: rest).length <
        (List.map ServiceNode.service_id (first :: rest)).length := by
      rw [List.length_map]
      exact Nat.mod_lt _ (Nat.succ_pos _)
    rw [List.getD_eq_getElem _ _ hb, List.getElem_map]
    simp [List.get_eq_getElem]

/-- Formula for a round-robin run over a pool with no registrations or
health changes in between: the `i`-th selection picks the id at position
`(current_index + i) mod pool size`. -/
theorem rrIdRun_formula (name : String) :
    ∀ (m : Nat) (services : RegistryList) (lb : LoadBalancer),
    lb.strategy = .LB_ROUND_ROBIN → healthyIds services name ≠ [] →
    rrIdRun m services lb name =
      (List.range m).map fun i =>
        (healthyIds services name).getD
          ((lb.current_index + i) % (healthyIds services name).length) 0
  | 0, services, lb, _, _ => by simp [rrIdRun]
  | m + 1, services, lb, hstrat, hne => by
    cases hinst : collectInstances services name with
    | nil => exact absurd (by simp [healthyIds, hinst]) hne
    | cons first rest =>
      obtain ⟨sel, hsel, hid⟩ :=
        select_round_robin_eq services lb name first rest hstrat hinst
      rw [rrIdRun, hsel]
      dsimp only
      have hne' : healthyIds (updateLoad services sel.service_id) name ≠ [] := by
        rw [healthyIds_updateLoad]; exact hne
      rw [rrIdRun_formula name m (updateLoad services sel.service_id)
        { lb with current_index := lb.current_index + 1 } hstrat hne']
      rw [healthyIds_updateLoad]
      rw [List.range_succ_eq_map, List.map_cons, List.map_map]
      refine congrArg₂ _ ?_ ?_
      · rw [hid, Nat.add_zero]
      · refine List.map_congr_left fun i _ => ?_
        simp only [Function.comp_apply]
        have harith : lb.current_index + 1 + i = lb.current_index + (i + 1) := by
          omega
        rw [harith]

/-- `i ↦ (c + i) % k` permutes `range k`. -/
theorem range_mod_perm (k c : Nat) (hk : 0 < k) :
    ((List.range k).map fun i => (c + i) % k).Perm (List.range k) := by
  have hnd : ((List.range k).map fun i => (c + i) % k).Nodup := by
    refine List.Nodup.map_on ?_ (List.nodup_range _)
    intro i hi j hj hij
    rw [List.mem_range] at hi hj
    have hm : Nat.ModEq k (c + i) (c + j) := hij
    have := Nat.ModEq.add_left_cancel' c hm
    have hij' : i % k = j % k := this
    rwa [Nat.mod_eq_of_lt hi, Nat.mod_eq_of_lt hj] at hij'
  have hsub : ((List.range k).map fun i => (c + i) % k) ⊆ List.range k := by
    intro a ha
    rw [List.mem_map] at ha
    obtain ⟨i, _, rfl⟩ := ha
    exact List.mem_range.mpr (Nat.mod_lt _ hk)
  exact (List.subperm_of_subset hnd hsub).perm_of_length_le (by simp)

/-- Reading every position of a list in order reproduces the list. -/
theorem map_getD_range (l : List Nat) :
    (List.range l.length).map (fun i => l.getD i 0) = l := by
  induction l with
  | nil => rfl
  | cons a l ih =>
    rw [List.length_cons, List.range_succ_eq_map, List.map_cons, List.map_map]
    refine congrArg₂ _ rfl ?_
    calc (List.range l.length).map ((fun i => (a :: l).getD i 0) ∘ Nat.succ)
        = (List.range l.length).map (fun i => l.getD i 0) :=
          List.map_congr_left fun i _ => by simp
      _ = l := ih

/-- C4: under round robin, for a stable pool of exactly `k` healthy
instances of the requested service (the only state changes between the
calls being those the selections themselves make), any `k` consecutive
selections — from an arbitrary starting counter — visit each of the `k`
instances exactly once: the list of selected ids is a permutation of the
pool's id list. -/
theorem C4_round_robin_visits_each_once (services : RegistryList)
    (lb : LoadBalancer) (name : String) (k : Nat)
    (hstrat : lb.strategy = .LB_ROUND_ROBIN)
    (hk : (healthyIds services name).length = k) (hpos : 0 < k) :
    (rrIdRun k services lb name).Perm (healthyIds services name) := by
  have hne : healthyIds services name ≠ [] := by
    intro h
    rw [h, List.length_nil] at hk
    omega
  rw [rrIdRun_formula name k services lb hstrat hne, hk]
  have hperm := (range_mod_perm k lb.current_index hpos).map
    fun j => (healthyIds services name).getD j 0
  rw [List.map_map] at hperm
  refine List.Perm.trans ?_ (hperm.trans ?_)
  · exact List.Perm.refl _
  · rw [← hk]
    exact (map_getD_range (healthyIds services name)).symm ▸ List.Perm.refl _

/-- A registry with three healthy instances of service "svc" (ids 0, 1, 2;
the list holds them most recently registered first). -/
def demoRRServices : RegistryList :=
  (eghact_register_service (eghact_register_service (eghact_register_service
    registry_init "svc" "10.0.0.1" 8080).2 "svc" "10.0.0.2" 8080).2
    "svc" "10.0.0.3" 8080).2.services

/-- C4 witness: three consecutive round-robin selections over the stable
three-instance pool, starting from counter 5, visit each instance once. -/
theorem C4_round_robin_visits_each_once_witness :
    (({ strategy := .LB_ROUND_ROBIN, current_index := 5 } :
        LoadBalancer).strategy = .LB_ROUND_ROBIN
      ∧ (healthyIds demoRRServices "svc").length = 3 ∧ 0 < 3) ∧
    (rrIdRun 3 demoRRServices
      { strategy := .LB_ROUND_ROBIN, current_index := 5 } "svc").Perm
      (healthyIds demoRRServices "svc") :=
  ⟨⟨rfl, by decide, by decide⟩,
   C4_round_robin_visits_each_once demoRRServices
     { strategy := .LB_ROUND_ROBIN, current_index := 5 } "svc" 3 rfl
     (by decide) (by decide)⟩

/-- C5: whenever `discover` returns an instance, that instance's last-known
health status is HEALTHY (`health_status = 1`); the statement quantifies
over every registry list, hence over the result of any sequence of
registrations and health updates. -/
theorem C5_discover_returns_only_healthy (services : RegistryList)
    (lb : LoadBalancer) (name : String) (sel : ServiceNode)
    (h : (eghact_discover_service services lb name).1 = some sel) :
    sel.health_status = 1 := by
  unfold eghact_discover_service at h
  cases hinst : collectInstances services name with
  | nil =>
    simp only [select_service_instance, hinst] at h
    exact Option.noConfusion h
  | cons first rest =>
    cases hstrat : lb.strategy with
    | LB_ROUND_ROBIN =>
      simp only [select_service_instance, hinst, hstrat,
        Option.some.injEq] at h
      have hmem : sel ∈ first :: rest := h ▸ List.get_mem _ _ _
      rw [← hinst] at hmem
      exact mem_collectInstances_healthy hmem
    | LB_LEAST_CONNECTIONS =>
      simp only [select_service_instance, hinst, hstrat,
        Option.some.injEq] at h
      have hmem : sel ∈ first :: rest := h ▸ leastConnScan_mem rest first
      rw [← hinst] at hmem
      exact mem_collectInstances_healthy hmem
    | LB_WEIGHTED =>
      simp only [select_service_instance, hinst, hstrat] at h
      exact Option.noConfusion h
    | LB_IP_HASH =>
      simp only [select_service_instance, hinst, hstrat] at h
      exact Option.noConfusion h

/-- C5 witness: with "payments" registered at 10.0.0.1:8080 (id 0) and
10.0.0.2:8080 (id 1) and id 1 marked UNHEALTHY by a failed probe,
`discover("payments")` returns the other instance, and the theorem yields
that it is healthy. -/
theorem C5_discover_returns_only_healthy_witness :
    ((eghact_discover_service
        (set_health (eghact_register_service (eghact_register_service
          registry_init "payments" "10.0.0.1" 8080).2
          "payments" "10.0.0.2" 8080).2.services 1 0)
        { strategy := .LB_ROUND_ROBIN, current_index := 0 } "payments").1 =
      some { service_id := 0, service_name := "payments", host := "10.0.0.1",
             port := 8080, health_status := 1, load := 0 }) ∧
    ({ service_id := 0, service_name := "payments", host := "10.0.0.1",
       port := 8080, health_status := 1, load := 0 } :
        ServiceNode).health_status = 1 :=
  ⟨by decide,
   C5_discover_returns_only_healthy
     (set_health (eghact_register_service (eghact_register_service
        registry_init "payments" "10.0.0.1" 8080).2
        "payments" "10.0.0.2" 8080).2.services 1 0)
     { strategy := .LB_ROUND_ROBIN, current_index := 0 } "payments"
     { service_id := 0, service_name := "payments", host := "10.0.0.1",
       port := 8080, health_status := 1, load := 0 }
     (by decide)⟩

/-- C2: the code cannot make the distinction the claim requires.
`eghact_discover_service` reports its outcome only through the returned
`ServiceNode` pointer, and `select_service_instance` returns `NULL` both
when the service name was never registered and when it is registered but
has no healthy instance: discovering "billing" on an empty registry and on
a registry holding one UNHEALTHY "billing" instance produce the identical
result `none`, so a caller cannot tell `NotFound` from
`NoHealthyInstance`. -/
theorem C2_discover_outcomes_indistinguishable :
    (eghact_discover_service registry_init.services
      { strategy := .LB_ROUND_ROBIN, current_index := 0 } "billing").1 = none
    ∧ (eghact_discover_service
        (set_health (eghact_register_service registry_init
          "billing" "10.0.0.9" 9000).2.services 0 0)
        { strategy := .LB_ROUND_ROBIN, current_index := 0 } "billing").1 = none := by
  decide

/-- C6: the linked-list message queue refines a functional FIFO list — the
tail-append enqueue equals plain list append — and for any messages m1, m2,
m3 enqueued in that order into an empty queue, the single dispatcher pops
them and hands each to delivery (with whatever target resolution it got) in
exactly that order. -/
theorem C6_fifo_refinement :
    (∀ (q : MessageQueueList) (m : Message), mq_enqueue q m = fifo_enqueue q m)
    ∧ ∀ (services : RegistryList) (lb : LoadBalancer) (m1 m2 m3 : Message),
        ∃ o1 o2 o3,
          (dispatchRun 3
            { services := services, lb := lb,
              queue := mq_enqueue (mq_enqueue (mq_enqueue [] m1) m2) m3 }).1
          = [(m1, o1), (m2, o2), (m3, o3)] := by
  constructor
  · intro q m
    cases q <;> rfl
  · intro services lb m1 m2 m3
    exact ⟨_, _, _, rfl⟩

/-- Registry-wide id sanity: every stored id is below the generator counter
and no id occurs twice. -/
def RegistryIdsOk (reg : Registry) : Prop :=
  (∀ n ∈ reg.services, n.service_id < reg.next_id) ∧
  (reg.services.map ServiceNode.service_id).Nodup

/-- C7: `register` always succeeds (returns 0) and pushes a node with
health HEALTHY, load 0 and an id distinct from the id of every node created
by any earlier register call, preserving registry-wide id uniqueness. -/
theorem C7_register_fresh_healthy (reg : Registry) (name host : String)
    (port : Int) (hok : RegistryIdsOk reg) :
    (eghact_register_service reg name host port).1 = 0 ∧
    ∃ node, (eghact_register_service reg name host port).2.services =
        node :: reg.services ∧
      node.health_status = 1 ∧ node.load = 0 ∧
      (∀ m ∈ reg.services, m.service_id ≠ node.service_id) ∧
      RegistryIdsOk (eghact_register_service reg name host port).2 := by
  refine ⟨rfl, _, rfl, rfl, rfl, ?_, ?_, ?_⟩
  · intro m hm
    exact Nat.ne_of_lt (hok.1 m hm)
  · intro n hn
    rcases List.mem_cons.mp hn with h1 | h1
    · rw [h1]
      exact Nat.lt_succ_self _
    · exact Nat.lt_succ_of_lt (hok.1 n h1)
  · simp only [eghact_register_service, generate_service_id, List.map_cons]
    refine List.Nodup.cons ?_ hok.2
    intro hmem
    rw [List.mem_map] at hmem
    obtain ⟨m, hm, hid⟩ := hmem
    exact absurd hid (Nat.ne_of_lt (hok.1 m hm))

/-- C7 witness: registering "svc" on a registry already holding one node. -/
theorem C7_register_fresh_healthy_witness :
    RegistryIdsOk (eghact_register_service registry_init
      "first" "10.0.0.1" 8080).2 ∧
    ((eghact_register_service (eghact_register_service registry_init
        "first" "10.0.0.1" 8080).2 "svc" "10.0.0.2" 9000).1 = 0 ∧
    ∃ node, (eghact_register_service (eghact_register_service registry_init
        "first" "10.0.0.1" 8080).2 "svc" "10.0.0.2" 9000).2.services =
        node :: (eghact_register_service registry_init
          "first" "10.0.0.1" 8080).2.services ∧
      node.health_status = 1 ∧ node.load = 0 ∧
      (∀ m ∈ (eghact_register_service registry_init
          "first" "10.0.0.1" 8080).2.services,
        m.service_id ≠ node.service_id) ∧
      RegistryIdsOk (eghact_register_service (eghact_register_service
        registry_init "first" "10.0.0.1" 8080).2 "svc" "10.0.0.2" 9000).2) :=
  ⟨⟨by decide, by decide⟩,
   C7_register_fresh_healthy (eghact_register_service registry_init
      "first" "10.0.0.1" 8080).2 "svc" "10.0.0.2" 9000
     ⟨by decide, by decide⟩⟩

/-- C8: `deregister(id)` fails with `NotFound` (`none`) exactly when no
node carries the id, and on an id that is present it succeeds and
afterwards no node with that id remains. -/
theorem C8_deregister_removes_or_not_found (reg : Registry) (id : Nat) :
    ((∀ n ∈ reg.services, n.service_id ≠ id) → deregister reg id = none) ∧
    ((∃ n ∈ reg.services, n.service_id = id) →
      ∃ reg', deregister reg id = some reg' ∧
        ∀ n ∈ reg'.services, n.service_id ≠ id) := by
  constructor
  · intro h
    rw [deregister, if_neg]
    simp only [List.any_eq_true, beq_iff_eq, not_exists]
    intro n
    intro hc
    exact absurd hc.2 (h n hc.1)
  · rintro ⟨n, hn, hid⟩
    rw [deregister, if_pos]
    · refine ⟨_, rfl, ?_⟩
      intro m hm
      have hf := List.of_mem_filter hm
      simpa using hf
    · simp only [List.any_eq_true, beq_iff_eq]
      exact ⟨n, hn, hid⟩

/-- C8 witness: on a registry holding ids 0 and 1, deregistering id 7 is
`NotFound` and deregistering id 0 succeeds and removes it. -/
theorem C8_deregister_removes_or_not_found_witness :
    ((∀ n ∈ (eghact_register_service (eghact_register_service registry_init
        "a" "h1" 1).2 "b" "h2" 2).2.services, n.service_id ≠ 7) ∧
      (∃ n ∈ (eghact_register_service (eghact_register_service registry_init
        "a" "h1" 1).2 "b" "h2" 2).2.services, n.service_id = 0)) ∧
    (deregister (eghact_register_service (eghact_register_service
        registry_init "a" "h1" 1).2 "b" "h2" 2).2 7 = none ∧
     ∃ reg', deregister (eghact_register_service (eghact_register_service
        registry_init "a" "h1" 1).2 "b" "h2" 2).2 0 = some reg' ∧
        ∀ n ∈ reg'.services, n.service_id ≠ 0) :=
  ⟨⟨by decide, by decide⟩,
   (C8_deregister_removes_or_not_found (eghact_register_service
      (eghact_register_service registry_init "a" "h1" 1).2 "b" "h2" 2).2
      7).1 (by decide),
   (C8_deregister_removes_or_not_found (eghact_register_service
      (eghact_register_service registry_init "a" "h1" 1).2 "b" "h2" 2).2
      0).2 (by decide)⟩

/-- C9: evaluation of the code at a failing input.  For a registry holding
one node, the trace of one `health_check_worker` iteration carries the
network probe of that node at position 1, between the lock acquisition at
position 0 and the release at the end — the probe executes while the
registry lock is held, which is exactly what the claim forbids. -/
theorem C9_probe_executes_under_registry_lock :
    (health_check_iteration_trace
      [{ service_id := 7, service_name := "svc", host := "10.0.0.1",
         port := 8080, health_status := 1, load := 0 }] (fun _ => 0))[1]?
      = some (HCEvent.probe 7)
    ∧ lockHeldAt (health_check_iteration_trace
      [{ service_id := 7, service_name := "svc", host := "10.0.0.1",
         port := 8080, health_status := 1, load := 0 }] (fun _ => 0)) 1 := by
  decide

/-- If `select_service_instance` selects nothing, it also leaves the
registry and the balancer untouched. -/
theorem select_none_eq (services : RegistryList) (lb : LoadBalancer)
    (name : String)
    (h : (select_service_instance services lb name).1 = none) :
    select_service_instance services lb name = (none, services, lb) := by
  cases hinst : collectInstances services name with
  | nil => simp only [select_service_instance, hinst]
  | cons first rest =>
    cases hstrat : lb.strategy with
    | LB_ROUND_ROBIN =>
      simp only [select_service_instance, hinst, hstrat] at h
      exact Option.noConfusion h
    | LB_LEAST_CONNECTIONS =>
      simp only [select_service_instance, hinst, hstrat] at h
      exact Option.noConfusion h
    | LB_WEIGHTED =>
      simp only [select_service_instance, hinst, hstrat]
    | LB_IP_HASH =>
      simp only [select_service_instance, hinst, hstrat]

/-- C10: `sendMessage` returns 0 for every input — the destination name is
never validated — and enqueues the message normally; when the dispatcher
pops a message whose destination resolves to no healthy instance, it
discards it undelivered, reports nothing, and the queue position advances
to the subsequent messages. -/
theorem C10_send_accepts_dispatcher_discards :
    (∀ (q : MessageQueueList) (from_s to_s payload : String),
      (eghact_send_message q from_s to_s payload).1 = 0 ∧
      (eghact_send_message q from_s to_s payload).2 =
        q ++ [{ from_service := from_s, to_service := to_s,
                payload := payload, priority := 5 }]) ∧
    ∀ (services : RegistryList) (lb : LoadBalancer) (msg : Message)
      (rest : MessageQueueList),
      (select_service_instance services lb msg.to_service).1 = none →
      message_dispatcher_step
          { services := services, lb := lb, queue := msg :: rest } =
        ({ services := services, lb := lb, queue := rest },
         some (msg, none)) := by
  constructor
  · intro q from_s to_s payload
    refine ⟨rfl, ?_⟩
    cases q <;> rfl
  · intro services lb msg rest h
    have hsel := select_none_eq services lb msg.to_service h
    simp only [message_dispatcher_step, eghact_discover_service, hsel]

/-- C10 witness: sending to the never-registered service "nowhere" and
dispatching it against an empty registry. -/
theorem C10_send_accepts_dispatcher_discards_witness :
    ((select_service_instance registry_init.services
        { strategy := .LB_ROUND_ROBIN, current_index := 0 }
        ({ from_service := "a", to_service := "nowhere", payload := "p",
           priority := 5 } : Message).to_service).1 = none) ∧
    message_dispatcher_step
        { services := registry_init.services,
          lb := { strategy := .LB_ROUND_ROBIN, current_index := 0 },
          queue := [{ from_service := "a", to_service := "nowhere",
                      payload := "p", priority := 5 }] } =
      ({ services := registry_init.services,
         lb := { strategy := .LB_ROUND_ROBIN, current_index := 0 },
         queue := [] },
       some ({ from_service := "a", to_service := "nowhere", payload := "p",
               priority := 5 }, none)) :=
  ⟨by decide,
   C10_send_accepts_dispatcher_discards.2 registry_init.services
     { strategy := .LB_ROUND_ROBIN, current_index := 0 }
     { from_service := "a", to_service := "nowhere", payload := "p",
       priority := 5 } [] (by decide)⟩

end Orchestrator
